import Mathlib

/-!
Verification of the multi-agent orchestration and live-artifact-synchronization
core of a React chat-to-web-project application.

The definitions below are a shallow embedding of the JavaScript source:

* `frontend/src/contexts/AppContext.jsx` (artifact store, conversation log,
  project save/load),
* `frontend/src/contexts/ConsensusContext.jsx` (consensus progress state),
* `frontend/src/hooks/useOpenRouter.js` (orchestration engine and polling),
* `frontend/src/components/chat/MessageItem.jsx` (code block extractor),
* `frontend/src/components/preview/PreviewPanel.jsx` (preview compositor and
  export),
* `frontend/src/components/chat/ChatInput.jsx` (submit guard).

JavaScript strings are modelled as `String`/`List Char`; plain objects used as
string-keyed maps are modelled as insertion-ordered association lists (spread
update keeps the position of an existing key, a fresh key is appended, matching
V8 ordering for non-index keys).  Truthiness of a string is `s ≠ ""`.
-/

namespace Spec2Proof

set_option maxHeartbeats 1000000
set_option maxRecDepth 20000

/-! ### Basic character classes

`btick` is the backtick character (code 96); `quot` the apostrophe (code 39).
`isWsChar` models the ASCII part of the JavaScript `\s` class (all whitespace
appearing in this code base is ASCII).  `isTagChar` models the character class
of the opening-fence hint capture of the extractor regex, which is written as
a bracket class of word characters, dot and hyphen. -/

def btick : Char := Char.ofNat 96

def quot : Char := Char.ofNat 39

def isWsChar (c : Char) : Bool :=
  c = ' ' || c = '\t' || c = '\n' || c = '\r' || c = Char.ofNat 11 || c = Char.ofNat 12

def isTagChar (c : Char) : Bool :=
  c.isAlphanum || c = '_' || c = '.' || c = '-'

/-- The three-backtick fence marker of the extractor regex. -/
def tickFence : List Char := [btick, btick, btick]

/-! ### JavaScript string primitives -/

/-- Model of `String.prototype.trim`: drop leading and trailing whitespace. -/
def trimChars (l : List Char) : List Char :=
  ((l.dropWhile isWsChar).reverse.dropWhile isWsChar).reverse

/-- `trimChars`, packaged as a `String`. -/
def strTrim (l : List Char) : String := String.mk (trimChars l)

/-- Model of `s.endsWith(suffix)`. -/
def endsWithStr (suffix s : String) : Bool :=
  suffix.data.isSuffixOf s.data

/-- First occurrence of `pat` in `s`: returns the part strictly before the
occurrence and the part strictly after it.  This is the search underlying both
`String.prototype.replace` (with a string pattern) and
`String.prototype.includes`. -/
def splitFirst (pat : List Char) : List Char → Option (List Char × List Char)
  | [] => if pat.isEmpty then some ([], []) else none
  | c :: rest =>
    if pat.isPrefixOf (c :: rest) then some ([], (c :: rest).drop pat.length)
    else (splitFirst pat rest).map (fun p => (c :: p.1, p.2))

/-- Model of `s.includes(pat)`. -/
def containsSub (pat s : List Char) : Bool := (splitFirst pat s).isSome

/-- Model of the `GetSubstitution` step of `String.prototype.replace` with a
string replacement: `$$`, `$&` (the matched pattern), `$` followed by a
backtick (the part before the match) and `$` followed by an apostrophe (the
part after the match) are interpreted; any other `$` is literal.  With a
string search pattern there are no capture groups, so `$n` is literal. -/
def jsSubst (matched pre post : List Char) : List Char → List Char
  | [] => []
  | c :: rest =>
    if c = '$' then
      match rest with
      | [] => ['$']
      | d :: rest2 =>
        if d = '$' then '$' :: jsSubst matched pre post rest2
        else if d = '&' then matched ++ jsSubst matched pre post rest2
        else if d = btick then pre ++ jsSubst matched pre post rest2
        else if d = quot then post ++ jsSubst matched pre post rest2
        else '$' :: d :: jsSubst matched pre post rest2
    else c :: jsSubst matched pre post rest

/-- Model of `s.replace(pat, repl)` with string `pat` and `repl`: replace the
first occurrence only, applying `jsSubst` to the replacement; if `pat` does
not occur, the string is returned unchanged. -/
def jsReplace (pat repl s : List Char) : List Char :=
  match splitFirst pat s with
  | none => s
  | some (pre, post) => pre ++ jsSubst pat pre post repl ++ post

/-- Model of `a || b` on strings: the empty string is falsy. -/
def jsOr (a : Option String) (b : String) : String :=
  match a with
  | some s => if s = "" then b else s
  | none => b

/-! ### Counting substring occurrences

`occSet v s` is the set of positions of `s` at which the pattern `v` occurs;
`countOcc v s` is the number of occurrences (overlapping occurrences counted
separately).  Used to state that the viewport directive appears at most once
in a composed preview document. -/

/-- Positions of `s` at which `v` occurs as a contiguous substring. -/
def occSet (v s : List Char) : Finset Nat :=
  (Finset.range (s.length + 1)).filter (fun i => v <+: s.drop i)

/-- Number of occurrences of `v` as a contiguous substring of `s`. -/
def countOcc (v s : List Char) : Nat := (occSet v s).card

lemma mem_occSet {v s : List Char} {i : Nat} :
    i ∈ occSet v s ↔ i ≤ s.length ∧ v <+: s.drop i := by
  simp [occSet, Nat.lt_succ_iff]

lemma occSet_pos_lt {v s : List Char} {i : Nat}
    (h : i ∈ occSet v s) : i + v.length ≤ s.length := by
  rcases mem_occSet.1 h with ⟨hle, hpre⟩
  have := hpre.length_le
  simp [List.length_drop] at this
  omega

lemma prefix_of_prefix_append {v a b : List Char} (h : v <+: a ++ b)
    (hlen : v.length ≤ a.length) : v <+: a := by
  rw [List.prefix_iff_eq_take] at h ⊢
  rw [List.take_append_eq_append_take, Nat.sub_eq_zero_of_le hlen] at h
  simpa using h

lemma occSet_subset_append_left {v a b : List Char} :
    occSet v a ⊆ occSet v (a ++ b) := by
  intro i hi
  rcases mem_occSet.1 hi with ⟨hle, hpre⟩
  refine mem_occSet.2 ⟨by simp; omega, ?_⟩
  rw [List.drop_append_eq_append_drop]
  exact hpre.trans (List.prefix_append _ _)

lemma shift_mem_occSet_append {v a b : List Char} {j : Nat}
    (hj : j ∈ occSet v b) : a.length + j ∈ occSet v (a ++ b) := by
  rcases mem_occSet.1 hj with ⟨hle, hpre⟩
  refine mem_occSet.2 ⟨by simp; omega, ?_⟩
  rw [List.drop_append_eq_append_drop, List.drop_eq_nil_of_le (by omega)]
  simpa using hpre

/-- No occurrence of `v` straddles the junction between `a` and `b`: there is
no way to cut `v` into a nonempty suffix of `a` followed by a nonempty prefix
of `b`. -/
def NoCross (v a b : List Char) : Prop :=
  ∀ s1 s2 : List Char, v = s1 ++ s2 → s1 ≠ [] → s2 ≠ [] → ¬ (s1 <:+ a ∧ s2 <+: b)

lemma occSet_append_eq {v a b : List Char} (h : NoCross v a b) :
    occSet v (a ++ b) = occSet v a ∪ (occSet v b).image (a.length + ·) := by
  apply Finset.Subset.antisymm
  · intro i hi
    rcases mem_occSet.1 hi with ⟨hle, hpre⟩
    rcases Nat.lt_or_ge i a.length with hlt | hge
    · rcases le_or_lt (i + v.length) a.length with hfit | hcross
      · refine Finset.mem_union_left _ (mem_occSet.2 ⟨by omega, ?_⟩)
        have hd : (a ++ b).drop i = a.drop i ++ b := by
          rw [List.drop_append_eq_append_drop, Nat.sub_eq_zero_of_le (by omega)]
          simp
        rw [hd] at hpre
        exact prefix_of_prefix_append hpre (by simp [List.length_drop]; omega)
      · exfalso
        have hd : (a ++ b).drop i = a.drop i ++ b := by
          rw [List.drop_append_eq_append_drop, Nat.sub_eq_zero_of_le (by omega)]
          simp
        rw [hd] at hpre
        have hk : (a.drop i).length ≤ v.length := by
          simp [List.length_drop]; omega
        have hpre2 := List.prefix_iff_eq_take.1 hpre
        have htake : v.take (a.drop i).length = a.drop i := by
          calc v.take (a.drop i).length
              = ((a.drop i ++ b).take v.length).take (a.drop i).length := by
                rw [← hpre2]
            _ = (a.drop i ++ b).take (a.drop i).length := by
                rw [List.take_take, Nat.min_eq_left hk]
            _ = a.drop i := by
                rw [List.take_append_eq_append_take, Nat.sub_self,
                  List.take_of_length_le (le_refl _)]
                simp
        have hdropv : v.drop (a.drop i).length
            = b.take (v.length - (a.drop i).length) := by
          calc v.drop (a.drop i).length
              = ((a.drop i ++ b).take v.length).drop (a.drop i).length := by
                rw [← hpre2]
            _ = ((a.drop i ++ b).drop (a.drop i).length).take
                  (v.length - (a.drop i).length) := by
                rw [List.drop_take]
            _ = b.take (v.length - (a.drop i).length) := by
                rw [List.drop_append_eq_append_drop, Nat.sub_self,
                  List.drop_eq_nil_of_le (le_refl _)]
                simp
        have hveq : v = a.drop i ++ v.drop (a.drop i).length := by
          conv_lhs => rw [← List.take_append_drop (a.drop i).length v]
          rw [htake]
        have hs1ne : a.drop i ≠ [] := by
          intro hnil
          have := congrArg List.length hnil
          simp [List.length_drop] at this
          omega
        have hs2ne : v.drop (a.drop i).length ≠ [] := by
          intro hnil
          have := congrArg List.length hnil
          simp [List.length_drop] at this
          omega
        refine h (a.drop i) (v.drop (a.drop i).length) hveq hs1ne hs2ne
          ⟨List.drop_suffix _ _, ?_⟩
        exact ⟨b.drop (v.length - (a.drop i).length), by
          rw [hdropv, List.take_append_drop]⟩
    · refine Finset.mem_union_right _ (Finset.mem_image.2 ⟨i - a.length, ?_, by omega⟩)
      refine mem_occSet.2 ⟨by simp at hle; omega, ?_⟩
      have hd : (a ++ b).drop i = b.drop (i - a.length) := by
        rw [List.drop_append_eq_append_drop, List.drop_eq_nil_of_le (by omega)]
        simp
      rwa [hd] at hpre
  · intro i hi
    rcases Finset.mem_union.1 hi with hl | hr
    · exact occSet_subset_append_left hl
    · rcases Finset.mem_image.1 hr with ⟨j, hj, rfl⟩
      exact shift_mem_occSet_append hj

lemma occSet_lt_length_of_ne_nil {v a : List Char} {i : Nat} (hv : v ≠ [])
    (h : i ∈ occSet v a) : i < a.length := by
  have := occSet_pos_lt h
  have hvpos : 0 < v.length := List.length_pos.2 hv
  omega

lemma countOcc_append_eq {v a b : List Char} (hv : v ≠ []) (h : NoCross v a b) :
    countOcc v (a ++ b) = countOcc v a + countOcc v b := by
  unfold countOcc
  rw [occSet_append_eq h, Finset.card_union_of_disjoint, Finset.card_image_of_injective]
  · exact fun x y hxy => by omega
  · rw [Finset.disjoint_left]
    intro i hi hi2
    rcases Finset.mem_image.1 hi2 with ⟨j, _, hji⟩
    have := occSet_lt_length_of_ne_nil hv hi
    omega

lemma countOcc_le_append_left (v a b : List Char) :
    countOcc v b ≤ countOcc v (a ++ b) := by
  unfold countOcc
  calc (occSet v b).card = ((occSet v b).image (a.length + ·)).card := by
        rw [Finset.card_image_of_injective]
        exact fun x y hxy => by omega
    _ ≤ (occSet v (a ++ b)).card := by
        apply Finset.card_le_card
        intro i hi
        rcases Finset.mem_image.1 hi with ⟨j, hj, rfl⟩
        exact shift_mem_occSet_append hj

lemma countOcc_le_append_right (v a b : List Char) :
    countOcc v a ≤ countOcc v (a ++ b) :=
  Finset.card_le_card occSet_subset_append_left

lemma countOcc_le_of_prefix {v a s : List Char} (h : a <+: s) :
    countOcc v a ≤ countOcc v s := by
  rcases h with ⟨t, rfl⟩
  exact countOcc_le_append_right v a t

lemma countOcc_le_of_suffix {v a s : List Char} (h : a <:+ s) :
    countOcc v a ≤ countOcc v s := by
  rcases h with ⟨t, rfl⟩
  exact countOcc_le_append_left v t a

lemma drop_prefix_mono {x y : List Char} (n : Nat) (h : x <+: y)
    (hn : n ≤ x.length) : x.drop n <+: y.drop n := by
  rcases h with ⟨t, rfl⟩
  rw [List.drop_append_eq_append_drop, Nat.sub_eq_zero_of_le hn]
  simp [List.prefix_append]

/-- If `v` occurs inside `w` (say at offset `p.length`), every occurrence of
`w` in `s` yields an occurrence of `v` in `s`, so `w` occurs at most as often
as `v`. -/
lemma countOcc_le_of_mid {v w p q s : List Char}
    (hw : w = p ++ v ++ q) : countOcc w s ≤ countOcc v s := by
  unfold countOcc
  apply Finset.card_le_card_of_injOn (fun i => i + p.length)
  · intro i hi
    rcases mem_occSet.1 hi with ⟨hle, hpre⟩
    have hwlen : p.length + v.length ≤ w.length := by
      subst hw; simp
    have hfit := occSet_pos_lt hi
    refine mem_occSet.2 ⟨by omega, ?_⟩
    have h2 : w.drop p.length <+: (s.drop i).drop p.length :=
      drop_prefix_mono p.length hpre (by omega)
    rw [List.drop_drop] at h2
    have h3 : w.drop p.length = v ++ q := by
      subst hw
      rw [List.append_assoc, List.drop_append_eq_append_drop, Nat.sub_self]
      simp
    rw [h3] at h2
    exact (List.prefix_append v q).trans h2
  · intro x _ y _ hxy
    have hxy2 : x + p.length = y + p.length := hxy
    omega

/-! ### Lemmas about `splitFirst`, `containsSub`, `takeWhile` and `dropWhile` -/

lemma splitFirst_eq (pat : List Char) : ∀ s pre post,
    splitFirst pat s = some (pre, post) → s = pre ++ pat ++ post := by
  intro s
  induction s with
  | nil =>
    intro pre post h
    simp only [splitFirst] at h
    split at h
    · next hemp =>
      obtain ⟨h1, h2⟩ := Prod.mk.injEq .. ▸ Option.some.injEq .. ▸ h
      subst h1; subst h2
      have hpe : pat = [] := List.isEmpty_iff.1 hemp
      simp [hpe]
    · exact absurd h (by simp)
  | cons c rest ih =>
    intro pre post h
    simp only [splitFirst] at h
    split at h
    · next hp =>
      obtain ⟨h1, h2⟩ := Prod.mk.injEq .. ▸ Option.some.injEq .. ▸ h
      subst h1; subst h2
      rcases List.isPrefixOf_iff_prefix.1 hp with ⟨t, ht⟩
      rw [← ht]
      simp [List.drop_append_eq_append_drop, List.drop_eq_nil_of_le (le_refl pat.length)]
    · next hp =>
      rcases Option.map_eq_some'.1 h with ⟨⟨a, b⟩, hab, heq⟩
      obtain ⟨h1, h2⟩ := Prod.mk.injEq .. ▸ heq
      subst h1; subst h2
      have := ih a b hab
      rw [this]
      simp

lemma splitFirst_none_no_occ {pat : List Char} (hpat : pat ≠ []) : ∀ {s : List Char},
    splitFirst pat s = none → ∀ i, ¬ pat <+: s.drop i := by
  intro s
  induction s with
  | nil =>
    intro _ i hp
    rw [List.drop_nil] at hp
    exact hpat (List.prefix_nil.1 hp)
  | cons c rest ih =>
    intro h i hp
    simp only [splitFirst] at h
    by_cases hpre : pat.isPrefixOf (c :: rest)
    · simp [hpre] at h
    · simp [hpre] at h
      match i with
      | 0 => exact hpre (List.isPrefixOf_iff_prefix.2 (by simpa using hp))
      | j + 1 => exact ih h j (by simpa using hp)

lemma countOcc_eq_zero_of_not_contains {pat s : List Char} (hpat : pat ≠ [])
    (h : containsSub pat s = false) : countOcc pat s = 0 := by
  have hnone : splitFirst pat s = none := by
    unfold containsSub at h
    exact Option.not_isSome_iff_eq_none.1 (by simp [h])
  unfold countOcc
  rw [Finset.card_eq_zero, Finset.eq_empty_iff_forall_not_mem]
  intro i hi
  exact splitFirst_none_no_occ hpat hnone i (mem_occSet.1 hi).2

lemma splitFirst_at_junction {y : List Char} : ∀ {x : List Char},
    (∀ c ∈ x, c ≠ btick) → splitFirst tickFence (x ++ (tickFence ++ y)) = some (x, y) := by
  intro x
  induction x with
  | nil =>
    intro _
    have hpre : tickFence.isPrefixOf (btick :: (btick :: (btick :: y))) = true :=
      List.isPrefixOf_iff_prefix.2 (List.prefix_append _ _)
    rw [List.nil_append]
    rw [show tickFence ++ y = btick :: (btick :: (btick :: y)) from rfl]
    simp only [splitFirst]
    rw [if_pos hpre]
    simp [tickFence]
  | cons c rest ih =>
    intro hx
    have hc : c ≠ btick := hx c (by simp)
    have hnp : ¬ tickFence.isPrefixOf (c :: (rest ++ (tickFence ++ y))) = true := by
      intro hcon
      rcases List.isPrefixOf_iff_prefix.1 hcon with ⟨t, ht⟩
      rw [show tickFence = btick :: (btick :: (btick :: [])) from rfl] at ht
      simp at ht
      exact hc ht.1.symm
    rw [List.cons_append]
    simp only [splitFirst]
    rw [if_neg hnp, ih (fun d hd => hx d (by simp [hd]))]
    simp

lemma takeWhile_append_stop {p : Char → Bool} {l2 : List Char}
    (h2 : ∀ c, l2.head? = some c → p c = false) :
    ∀ l1 : List Char,
      (l1 ++ l2).takeWhile p = l1.takeWhile p
        ∧ (l1 ++ l2).dropWhile p = l1.dropWhile p ++ l2 := by
  intro l1
  induction l1 with
  | nil =>
    cases l2 with
    | nil => simp
    | cons d t =>
      have := h2 d rfl
      simp [List.takeWhile, List.dropWhile, this]
  | cons c rest ih =>
    by_cases hc : p c = true
    · simp [List.takeWhile, List.dropWhile, hc, ih.1, ih.2]
    · have hc2 : p c = false := by simpa using hc
      simp [List.takeWhile, List.dropWhile, hc2]

lemma dropWhile_append_of_all {p : Char → Bool} {l2 : List Char} :
    ∀ l1 : List Char, (∀ c ∈ l1, p c = true) →
      (l1 ++ l2).dropWhile p = l2.dropWhile p := by
  intro l1
  induction l1 with
  | nil => intro _; simp
  | cons c rest ih =>
    intro h1
    have hc : p c = true := h1 c (by simp)
    simp only [List.cons_append, List.dropWhile, hc]
    exact ih (fun d hd => h1 d (by simp [hd]))

lemma mem_takeWhile_sat {p : Char → Bool} {l : List Char} :
    ∀ c ∈ l.takeWhile p, p c = true :=
  fun _ hc => List.mem_takeWhile_imp hc

/-! ### Code Block Extractor

Shallow embedding of `extractCodeBlocks` from `MessageItem.jsx` (the identical
regex loop also appears in the memoized `codeBlocks` of the alternate
`MessageItem` source).  The JavaScript loop repeatedly runs the sticky regex

  triple-backtick, optional tag of word/dot/hyphen characters, `\s*`, newline,
  lazy body, triple-backtick

over the message text and resolves each tag through a canonical table.  The
greedy-`\s*`-then-`\n` part consumes through the LAST newline of the maximal
whitespace run following the tag (backtracking semantics), the lazy body ends
at the FIRST subsequent triple backtick, later match attempts resume after the
closing fence, and a position where no match starts is skipped one character
at a time.  `tryFence` models one match attempt at the current position;
`scanF` models the whole `while (exec)` loop, with fuel equal to the remaining
text length (each match consumes at least the opening fence, so the length is
always sufficient fuel). -/

/-- The suffix of `ws` after its last newline (the part of a greedy `\s*` run
that the backtracked `\s*\n` does not consume, hence belongs to the body). -/
def afterLastNewline (ws : List Char) : List Char :=
  (ws.reverse.takeWhile (fun c => !(c = '\n'))).reverse

/-- Model of `filename.toLowerCase()` for the ASCII tags involved. -/
def toLowerStr (l : List Char) : String := String.mk (l.map Char.toLower)

/-- The canonical-name table of the extractor: a missing tag falls back to
`code`; markup, stylesheet and script tags map to the three canonical
filenames; any other tag is used literally. -/
def resolveName (tag : List Char) : String :=
  if tag.isEmpty then "code"
  else
    let lower := toLowerStr tag
    if lower = "html" ∨ lower = "htm" then "index.html"
    else if lower = "css" ∨ lower = "style" then "style.css"
    else if lower = "js" ∨ lower = "javascript" then "script.js"
    else String.mk tag

/-- One attempted match of the fence regex at the head of `s`.  Returns the
resolved filename, the trimmed body, and the text after the closing fence. -/
def tryFence (s : List Char) : Option (String × String × List Char) :=
  match s with
  | a :: b :: c :: t =>
    if a = btick && b = btick && c = btick then
      let tag := t.takeWhile isTagChar
      let t1 := t.dropWhile isTagChar
      let ws := t1.takeWhile isWsChar
      let t2 := t1.dropWhile isWsChar
      if ws.contains '\n' then
        match splitFirst tickFence (afterLastNewline ws ++ t2) with
        | some (body, rest) => some (resolveName tag, strTrim body, rest)
        | none => none
      else none
    else none
  | _ => none

lemma tryFence_rest_lt {s : List Char} {fn code : String} {rest : List Char}
    (h : tryFence s = some (fn, code, rest)) : rest.length < s.length := by
  match s with
  | [] => simp [tryFence] at h
  | [a] => simp [tryFence] at h
  | [a, b] => simp [tryFence] at h
  | a :: b :: c :: t =>
    simp only [tryFence] at h
    split at h
    · split at h
      · split at h
        · next body rest2 heq =>
          obtain rfl : rest = rest2 := congrArg (fun p => p.2.2) (Option.some.inj h.symm)
          have he := splitFirst_eq _ _ _ _ heq
          have hlen := congrArg List.length he
          simp [tickFence] at hlen
          have hbody : (afterLastNewline (List.takeWhile isWsChar
              (List.dropWhile isTagChar t))).length
              ≤ (List.takeWhile isWsChar (List.dropWhile isTagChar t)).length := by
            unfold afterLastNewline
            have hsp := congrArg List.length (List.takeWhile_append_dropWhile
              (fun c => !(c = '\n'))
              (List.takeWhile isWsChar (List.dropWhile isTagChar t)).reverse)
            simp only [List.length_append, List.length_reverse] at hsp ⊢
            omega
          have hsplit := congrArg List.length (List.takeWhile_append_dropWhile
            isWsChar (List.dropWhile isTagChar t))
          have hdw := congrArg List.length (List.takeWhile_append_dropWhile
            isTagChar t)
          simp only [List.length_append] at hsplit hdw
          simp only [List.length_cons]
          omega
        · exact absurd h (by simp)
      · exact absurd h (by simp)
    · exact absurd h (by simp)

/-- The `while ((match = regex.exec(text)) !== null)` loop of the extractor:
at each position try a match; on success emit the block and continue after the
closing fence, otherwise advance one character.  `fuel` bounds the number of
steps; `s.length` is always enough. -/
def scanF : Nat → List Char → List (String × String)
  | _, [] => []
  | 0, _ :: _ => []
  | f + 1, c :: rest =>
    match tryFence (c :: rest) with
    | some (fn, code, rest2) => (fn, code) :: scanF f rest2
    | none => scanF f rest

/-- `extractCodeBlocks` from `MessageItem.jsx`: all fenced blocks of a message
with resolved filenames and trimmed bodies, in order of appearance. -/
def extractCodeBlocks (s : String) : List (String × String) :=
  scanF s.data.length s.data

/-- The global-replace of the fenced-block regex by the empty string used to
compute `textContent` in the alternate `MessageItem` source: matched fences
are dropped, unmatched characters are kept. -/
def stripF : Nat → List Char → List Char
  | _, [] => []
  | 0, l => l
  | f + 1, c :: rest =>
    match tryFence (c :: rest) with
    | some (_, _, rest2) => stripF f rest2
    | none => c :: stripF f rest

/-- The prose portion of a message (`textContent` in the alternate
`MessageItem` source): the full text when there is no code block, otherwise
the text with all fenced blocks removed and the result trimmed. -/
def proseContent (s : String) : String :=
  if (extractCodeBlocks s).isEmpty then s
  else strTrim (stripF s.data.length s.data)

lemma dropWhile_dropWhile (p : Char → Bool) (l : List Char) :
    (l.dropWhile p).dropWhile p = l.dropWhile p := by
  induction l with
  | nil => simp
  | cons c rest ih =>
    by_cases hc : p c = true
    · simpa [List.dropWhile, hc] using ih
    · have hc2 : p c = false := by simpa using hc
      simp [List.dropWhile, hc2]

lemma scanF_fuel_irrel : ∀ (f1 : Nat) {s : List Char} (f2 : Nat),
    s.length ≤ f1 → s.length ≤ f2 → scanF f1 s = scanF f2 s := by
  intro f1
  induction f1 with
  | zero =>
    intro s f2 h1 _
    have : s = [] := List.length_eq_zero.1 (by omega)
    subst this
    simp [scanF]
  | succ g ih =>
    intro s f2 h1 h2
    match s, f2 with
    | [], _ => simp [scanF]
    | c :: rest, 0 => exact absurd h2 (by simp)
    | c :: rest, g2 + 1 =>
      simp only [scanF]
      match htf : tryFence (c :: rest) with
      | some (fn, code, rest2) =>
        have hlt := tryFence_rest_lt htf
        simp only [List.length_cons] at h1 h2 hlt
        show (fn, code) :: scanF g rest2 = (fn, code) :: scanF g2 rest2
        rw [ih g2 (by omega) (by omega)]
      | none =>
        simp only [List.length_cons] at h1 h2
        show scanF g rest = scanF g2 rest
        rw [ih g2 (by omega) (by omega)]

lemma tryFence_none_of_head {c : Char} (hc : c ≠ btick) (l : List Char) :
    tryFence (c :: l) = none := by
  match l with
  | [] => simp [tryFence]
  | [x] => simp [tryFence]
  | x :: y :: t =>
    simp only [tryFence]
    rw [if_neg]
    simp [hc]

lemma scanF_skip_noTick {s : List Char} : ∀ {p : List Char}, (∀ c ∈ p, c ≠ btick) →
    scanF (p ++ s).length (p ++ s) = scanF s.length s := by
  intro p
  induction p with
  | nil => intro _; simp
  | cons c rest ih =>
    intro hp
    have hc : c ≠ btick := hp c (by simp)
    have h2 : tryFence (c :: (rest ++ s)) = none := tryFence_none_of_head hc _
    calc scanF ((c :: rest ++ s)).length (c :: rest ++ s)
        = scanF ((rest ++ s).length + 1) (c :: (rest ++ s)) := by simp
      _ = scanF (rest ++ s).length (rest ++ s) := by simp [scanF, h2]
      _ = scanF s.length s := ih (fun d hd => hp d (by simp [hd]))

lemma scanF_nil_of_noTick {p : List Char} (hp : ∀ c ∈ p, c ≠ btick) :
    scanF p.length p = [] := by
  have := @scanF_skip_noTick [] p hp
  simpa using this

/-- A successful match of the fence regex at a well-formed fence: tag of tag
characters, a newline, a backtick-free body, the closing fence. -/
lemma tryFence_block {tag : List Char} (htag : ∀ c ∈ tag, isTagChar c = true)
    {b : List Char} (hb : ∀ c ∈ b, c ≠ btick) (rest : List Char) :
    tryFence (tickFence ++ (tag ++ ('\n' :: (b ++ (tickFence ++ rest)))))
      = some (resolveName tag, strTrim b, rest) := by
  have hshape : tickFence ++ (tag ++ ('\n' :: (b ++ (tickFence ++ rest))))
      = btick :: btick :: btick :: (tag ++ ('\n' :: (b ++ (tickFence ++ rest)))) := rfl
  rw [hshape]
  simp only [tryFence]
  rw [if_pos (by simp)]
  have htw := @takeWhile_append_stop isTagChar ('\n' :: (b ++ (tickFence ++ rest)))
    (fun c hc => by
      simp at hc
      subst hc
      rfl) tag
  have htag_take : tag.takeWhile isTagChar = tag :=
    List.takeWhile_eq_self_iff.2 htag
  have htag_drop : tag.dropWhile isTagChar = [] :=
    List.dropWhile_eq_nil_iff.2 htag
  rw [htw.1, htw.2, htag_take, htag_drop, List.nil_append]
  have hwb := @takeWhile_append_stop isWsChar (tickFence ++ rest)
    (fun c hc => by
      simp [tickFence] at hc
      subst hc
      rfl) b
  have hws : List.takeWhile isWsChar ('\n' :: (b ++ (tickFence ++ rest)))
      = '\n' :: List.takeWhile isWsChar b := by
    simp only [List.takeWhile]
    rw [show isWsChar '\n' = true from rfl]
    rw [hwb.1]
  have hdrop : List.dropWhile isWsChar ('\n' :: (b ++ (tickFence ++ rest)))
      = List.dropWhile isWsChar b ++ (tickFence ++ rest) := by
    simp only [List.dropWhile]
    rw [show isWsChar '\n' = true from rfl]
    exact hwb.2
  rw [hws, hdrop]
  rw [if_pos (by simp)]
  have haln : afterLastNewline ('\n' :: List.takeWhile isWsChar b)
      = afterLastNewline (List.takeWhile isWsChar b) := by
    unfold afterLastNewline
    have : ('\n' :: List.takeWhile isWsChar b).reverse
        = (List.takeWhile isWsChar b).reverse ++ ['\n'] := by simp
    rw [this]
    rw [(@takeWhile_append_stop (fun c => !(c = '\n')) ['\n']
      (fun c hc => by
        simp at hc
        subst hc
        simp) _).1]
  rw [haln]
  have hmem_aln : ∀ c ∈ afterLastNewline (List.takeWhile isWsChar b), c ∈ b := by
    intro c hc
    unfold afterLastNewline at hc
    rw [List.mem_reverse] at hc
    have h1 : c ∈ (List.takeWhile isWsChar b).reverse :=
      (List.takeWhile_sublist _).subset hc
    rw [List.mem_reverse] at h1
    exact (List.takeWhile_sublist _).subset h1
  have hmem_db : ∀ c ∈ List.dropWhile isWsChar b, c ∈ b := by
    intro c hc
    exact (List.dropWhile_sublist _).subset hc
  have hjunction := @splitFirst_at_junction rest
    (afterLastNewline (List.takeWhile isWsChar b) ++ List.dropWhile isWsChar b)
    (by
      intro c hc
      rcases List.mem_append.1 hc with h | h
      · exact hb c (hmem_aln c h)
      · exact hb c (hmem_db c h))
  rw [show afterLastNewline (List.takeWhile isWsChar b)
        ++ (List.dropWhile isWsChar b ++ (tickFence ++ rest))
      = (afterLastNewline (List.takeWhile isWsChar b) ++ List.dropWhile isWsChar b)
        ++ (tickFence ++ rest) from by simp]
  have htrim : strTrim (afterLastNewline (List.takeWhile isWsChar b)
      ++ List.dropWhile isWsChar b) = strTrim b := by
    unfold strTrim trimChars
    have h1 : List.dropWhile isWsChar (afterLastNewline (List.takeWhile isWsChar b)
        ++ List.dropWhile isWsChar b) = List.dropWhile isWsChar b := by
      rw [dropWhile_append_of_all _ (fun c hc => by
        have hmem : c ∈ List.takeWhile isWsChar b := by
          unfold afterLastNewline at hc
          rw [List.mem_reverse] at hc
          have := (List.takeWhile_sublist (fun c => !(c = '\n'))).subset hc
          rwa [List.mem_reverse] at this
        exact List.mem_takeWhile_imp hmem)]
      exact dropWhile_dropWhile _ _
    rw [h1]
  rw [hjunction]
  show some (resolveName tag,
    strTrim (afterLastNewline (List.takeWhile isWsChar b) ++ List.dropWhile isWsChar b),
    rest) = some (resolveName tag, strTrim b, rest)
  rw [htrim]

/-- Scanning a well-formed fence at the head of the text yields its block and
continues after the closing fence. -/
lemma scanF_block {tag : List Char} (htag : ∀ c ∈ tag, isTagChar c = true)
    {b : List Char} (hb : ∀ c ∈ b, c ≠ btick) (rest : List Char) :
    scanF (tickFence ++ (tag ++ ('\n' :: (b ++ (tickFence ++ rest))))).length
        (tickFence ++ (tag ++ ('\n' :: (b ++ (tickFence ++ rest)))))
      = (resolveName tag, strTrim b) :: scanF rest.length rest := by
  have htf := tryFence_block htag hb rest
  have hshape : tickFence ++ (tag ++ ('\n' :: (b ++ (tickFence ++ rest))))
      = btick :: (btick :: btick :: (tag ++ ('\n' :: (b ++ (tickFence ++ rest))))) := rfl
  have hlen : (tickFence ++ (tag ++ ('\n' :: (b ++ (tickFence ++ rest))))).length
      = (btick :: btick :: (tag ++ ('\n' :: (b ++ (tickFence ++ rest))))).length + 1 := by
    simp [tickFence]
  rw [hshape]
  have hrest_le : rest.length
      ≤ (btick :: btick :: (tag ++ ('\n' :: (b ++ (tickFence ++ rest))))).length := by
    simp [tickFence]
    omega
  calc scanF (btick :: (btick :: btick :: (tag ++ ('\n' :: (b ++ (tickFence ++ rest)))))).length
        (btick :: (btick :: btick :: (tag ++ ('\n' :: (b ++ (tickFence ++ rest))))))
      = (resolveName tag, strTrim b) :: scanF
          (btick :: btick :: (tag ++ ('\n' :: (b ++ (tickFence ++ rest))))).length rest := by
        simp only [List.length_cons, scanF]
        rw [show tryFence (btick :: (btick :: btick :: (tag ++ ('\n' :: (b ++ (tickFence ++ rest))))))
            = some (resolveName tag, strTrim b, rest) from htf]
    _ = (resolveName tag, strTrim b) :: scanF rest.length rest := by
        rw [scanF_fuel_irrel _ rest.length hrest_le (le_refl _)]

/-! ### Artifact Store, Conversation Log and Role Registry (`AppContext.jsx`)

JavaScript objects used as string-keyed maps are modelled as insertion-ordered
association lists; `Object.keys` is the list of first components.  A spread
update `{...prev, [k]: v}` keeps the position of an existing key and appends a
fresh one. -/

/-- A string-keyed map with insertion order (a JavaScript object). -/
abbrev FileMap : Type := List (String × String)

/-- Lookup (`m[k]`). -/
def lookupFM (k : String) : FileMap → Option String
  | [] => none
  | (k2, v) :: rest => if k2 = k then some v else lookupFM k rest

/-- Spread update `{...m, [k]: v}`: replace in place, or append a fresh key. -/
def upsertFM (k v : String) : FileMap → FileMap
  | [] => [(k, v)]
  | (k2, v2) :: rest =>
    if k2 = k then (k, v) :: rest else (k2, v2) :: upsertFM k v rest

/-- Key removal (`delete m[k]`). -/
def removeFM (k : String) : FileMap → FileMap
  | [] => []
  | (k2, v2) :: rest =>
    if k2 = k then removeFM k rest else (k2, v2) :: removeFM k rest

/-- `Object.keys m`. -/
def keysFM (m : FileMap) : List String := m.map (fun p => p.1)

/-- JavaScript truthiness of `m[k]`: the key is present with non-empty
content.  (`undefined` and the empty string are both falsy.) -/
def truthyFM (k : String) (m : FileMap) : Bool :=
  match lookupFM k m with
  | some v => v ≠ ""
  | none => false

/-- A role entry of the Role Registry (`DEFAULT_ROLES` shape).  The `model`
field is the assigned model identifier, empty string when unassigned (the
source uses `null`, which is equally falsy); display-only fields (name, emoji,
description) carry no orchestration logic and are omitted. -/
structure Role where
  model : String
  enabled : Bool
  deriving DecidableEq, Repr

/-- The Role Registry: role keys to entries, in declaration order. -/
abbrev RolesMap : Type := List (String × Role)

/-- `selectedModels` of `AppContext.jsx`: models of the enabled roles that
have a model assigned, in registry order. -/
def selectedModels (roles : RolesMap) : List String :=
  ((roles.map (fun p => p.2)).filter (fun r => r.enabled && r.model ≠ "")).map
    (fun r => r.model)

/-- `getActiveRoles` of `AppContext.jsx`: the enabled roles with a model. -/
def getActiveRoles (roles : RolesMap) : List (String × Role) :=
  roles.filter (fun p => p.2.enabled && p.2.model ≠ "")

lemma getActiveRoles_nil_iff {roles : RolesMap} :
    getActiveRoles roles = [] ↔ selectedModels roles = [] := by
  unfold getActiveRoles selectedModels
  rw [List.map_eq_nil_iff, List.filter_eq_nil_iff, List.filter_eq_nil_iff]
  constructor
  · intro h r hr
    rcases List.mem_map.1 hr with ⟨p, hp, rfl⟩
    exact h p hp
  · intro h p hp
    exact h p.2 (List.mem_map_of_mem _ hp)

/-- A JavaScript timestamp value: a live `Date` object carrying epoch
milliseconds, or the ISO string it becomes after a `JSON` round trip. -/
inductive TVal where
  | tdate (ms : Nat)
  | tstr (s : String)
  deriving DecidableEq, Repr

/-- Decimal digits of `n`, most significant first (`fuel`-structural). -/
def digitsAux : Nat → Nat → List Char
  | 0, _ => []
  | f + 1, n =>
    if n < 10 then [Char.ofNat (48 + n)]
    else digitsAux f (n / 10) ++ [Char.ofNat (48 + n % 10)]

/-- Left-pad a decimal rendering to `w` digits with zeros. -/
def padNum (w n : Nat) : String :=
  let s := digitsAux (n + 1) n
  String.mk (List.replicate (w - s.length) '0' ++ s)

/-- Gregorian date from days since 1970-01-01 (civil-from-days). -/
def civilFromDays (z : Nat) : Nat × Nat × Nat :=
  let z2 := z + 719468
  let era := z2 / 146097
  let doe := z2 % 146097
  let yoe := (doe - doe / 1460 + doe / 36524 - doe / 146096) / 365
  let y := yoe + era * 400
  let doy := doe - (365 * yoe + yoe / 4 - yoe / 100)
  let mp := (5 * doy + 2) / 153
  let d := doy - (153 * mp + 2) / 5 + 1
  let m := if mp < 10 then mp + 3 else mp - 9
  (if m ≤ 2 then y + 1 else y, m, d)

/-- `Date.prototype.toISOString` for a (post-1970) epoch-millisecond value:
the rendering `JSON.stringify` gives a `Date`. -/
def isoOfMs (ms : Nat) : String :=
  let days := ms / 86400000
  let rem := ms % 86400000
  let ymd := civilFromDays days
  padNum 4 ymd.1 ++ "-" ++ padNum 2 ymd.2.1 ++ "-" ++ padNum 2 ymd.2.2
    ++ "T" ++ padNum 2 (rem / 3600000) ++ ":" ++ padNum 2 (rem % 3600000 / 60000)
    ++ ":" ++ padNum 2 (rem % 60000 / 1000) ++ "." ++ padNum 3 (rem % 1000) ++ "Z"

/-- A Conversation Log message as built by `addMessage`: the caller-supplied
fields plus `id: Date.now()`, `timestamp: new Date()` and a normalized
`image_url`. -/
structure Message where
  role : String
  content : String
  model : Option String
  metadata : Option String
  image_url : Option String
  id : Nat
  timestamp : TVal
  deriving DecidableEq, Repr

/-- The caller-supplied part of a message handed to `addMessage`. -/
structure MsgInput where
  role : String
  content : String
  model : Option String := none
  metadata : Option String := none
  image_url : Option String := none
  deriving DecidableEq, Repr

/-- What a `Message` becomes after `JSON.stringify`/`JSON.parse`: strings,
numbers and `null` are fixed points, a `Date` serializes to its ISO string. -/
def serializeMsg (m : Message) : Message :=
  { m with
    timestamp :=
      match m.timestamp with
      | TVal.tdate ms => TVal.tstr (isoOfMs ms)
      | TVal.tstr s => TVal.tstr s }

/-- A saved project snapshot (`{ name, files, messages, roles, timestamp }`). -/
structure Project where
  name : String
  files : FileMap
  messages : List Message
  roles : RolesMap
  timestamp : String
  deriving DecidableEq, Repr

/-- A project after the `localStorage` `JSON` round trip: only the message
timestamps change shape. -/
def serializeProject (p : Project) : Project :=
  { p with messages := p.messages.map serializeMsg }

/-- The full `AppContext` state.  `scheduled` counts pending
`setTimeout(refreshPreview, 300)` callbacks; `calls` counts network requests
handed to the chat collaborator (for stating that no call is attempted). -/
structure AppState where
  apiKey : String
  roles : RolesMap
  files : FileMap
  activeFile : String
  messages : List Message
  isGenerating : Bool
  previewKey : Nat
  scheduled : Nat
  projects : List Project
  currentProject : Option String
  deriving DecidableEq, Repr

/-- `refreshPreview`: bump the preview key (re-mounts the sandbox iframe). -/
def refreshPreview (s : AppState) : AppState :=
  { s with previewKey := s.previewKey + 1 }

/-- `addMessage`: append to the Conversation Log with a fresh id and a `Date`
timestamp (`now` is the ambient clock value). -/
def addMessage (inp : MsgInput) (now : Nat) (s : AppState) : AppState :=
  { s with messages := s.messages ++
      [{ role := inp.role, content := inp.content, model := inp.model,
         metadata := inp.metadata, image_url := inp.image_url,
         id := now, timestamp := TVal.tdate now }] }

/-- Is the filename previewable (`.html`, `.css` or `.js`)? -/
def isPreviewable (filename : String) : Bool :=
  endsWithStr ".html" filename || endsWithStr ".css" filename
    || endsWithStr ".js" filename

/-- `updateFile`: whole-file upsert; a previewable filename additionally
schedules a debounced preview refresh. -/
def updateFile (filename content : String) (s : AppState) : AppState :=
  let s2 := { s with files := upsertFM filename content s.files }
  if isPreviewable filename then { s2 with scheduled := s2.scheduled + 1 }
  else s2

/-- The outcome of `createFile` (`false` with a `DuplicateName` notice, or
`true` with a success notice). -/
inductive CreateOutcome where
  | duplicateName
  | created
  deriving DecidableEq, Repr

/-- `createFile`: rejected when `files[filename]` is truthy, otherwise insert
and select.  (The source checks truthiness, not key presence.) -/
def createFile (filename content : String) (s : AppState) :
    CreateOutcome × AppState :=
  if truthyFM filename s.files then (CreateOutcome.duplicateName, s)
  else (CreateOutcome.created,
    { s with files := upsertFM filename content s.files, activeFile := filename })

/-- The outcome of `deleteFile` (a `LastArtifact` notice, or deletion). -/
inductive DeleteOutcome where
  | lastArtifact
  | deleted
  deriving DecidableEq, Repr

/-- `deleteFile`: rejected when only one key remains; otherwise remove, and
reassign the active selection to the first remaining key if it pointed at the
removed one. -/
def deleteFile (filename : String) (s : AppState) : DeleteOutcome × AppState :=
  if s.files.length = 1 then (DeleteOutcome.lastArtifact, s)
  else
    let nf := removeFM filename s.files
    let af := if s.activeFile = filename then (keysFM nf).headD "" else s.activeFile
    (DeleteOutcome.deleted, { s with files := nf, activeFile := af })

/-- Replace the project stored under `sp.name`, or push a new entry: the
`findIndex`/assign-or-push sequence of `saveProject`. -/
def storeProject (sp : Project) : List Project → List Project
  | [] => [sp]
  | p :: rest => if p.name = sp.name then sp :: rest else p :: storeProject sp rest

/-- `saveProject`: snapshot name, files, messages, roles and an ISO timestamp
into the `projects` collection (which lives behind a `JSON` round trip, hence
the serialization), and mark the project current. -/
def saveProject (name nowIso : String) (s : AppState) : AppState :=
  let sp := serializeProject
    { name := name, files := s.files, messages := s.messages,
      roles := s.roles, timestamp := nowIso }
  { s with projects := storeProject sp s.projects, currentProject := some name }

/-- `loadProject`: look the name up; on success replace files, messages and
roles wholesale, select the first stored key, mark current and refresh the
preview; on failure only a notice is shown. -/
def loadProject (name : String) (s : AppState) : AppState :=
  match s.projects.find? (fun p => p.name = name) with
  | some p =>
    refreshPreview
      { s with
          files := p.files,
          messages := p.messages,
          roles := p.roles,
          currentProject := some name,
          activeFile := (keysFM p.files).headD "" }
  | none => s

/-! ### Preview Compositor and export (`PreviewPanel.jsx`) -/

/-- The mobile-viewport directive injected by the compositor. -/
def viewportTag : String :=
  "<meta name=\"viewport\" content=\"width=device-width, initial-scale=1.0\">"

/-- The `</head>`-splice and `</body>`-splice stage of `updatePreview`: start
from the markup artifact (or the empty-document fallback when it is falsy),
splice the stylesheet into the head and the script before the closing body
tag, each step a first-occurrence string replacement. -/
def spliceDoc (files : FileMap) : List Char :=
  let html0 := (jsOr (lookupFM "index.html" files) "<html><body></body></html>").data
  let html1 :=
    if truthyFM "style.css" files then
      jsReplace "</head>".data
        ("<style>".data ++ ((lookupFM "style.css" files).getD "").data
          ++ "</style></head>".data) html0
    else html0
  if truthyFM "script.js" files then
    jsReplace "</body>".data
      ("<script>".data ++ ((lookupFM "script.js" files).getD "").data
        ++ "</script></body>".data) html1
  else html1

/-- `updatePreview`: splice styles and script, then inject the mobile-viewport
directive after the first `<head>` if the document does not already mention
`viewport`; the result is written into the sandboxed iframe. -/
def updatePreview (files : FileMap) : List Char :=
  let doc := spliceDoc files
  if containsSub "viewport".data doc then doc
  else jsReplace "<head>".data ("<head>" ++ viewportTag).data doc

/-- `openInNewTab`: the export path.  It takes the markup artifact only (empty
fallback), injects the viewport directive if missing, and serves the result as
a standalone document. -/
def openInNewTab (files : FileMap) : List Char :=
  let html := ((lookupFM "index.html" files).getD "").data
  if containsSub "viewport".data html then html
  else jsReplace "<head>".data ("<head>" ++ viewportTag).data html

/-! ### Consensus Coordinator (`ConsensusContext.jsx`) -/

/-- The consensus progress record. -/
structure Progress where
  current : Nat
  total : Nat
  phase : String
  status : String
  deriving DecidableEq, Repr

/-- The initial progress state of the provider. -/
def progressInit : Progress :=
  { current := 0, total := 0, phase := "Planning", status := "idle" }

/-- `updateProgress` applied on one step-completion signal: increment
`current`, take the step phase when truthy, and set the status to `completed`
as soon as the new `current` reaches `total`, else `running`. -/
def updateProgress (stepPhase : String) (p : Progress) : Progress :=
  { current := p.current + 1,
    total := p.total,
    phase := if stepPhase ≠ "" then stepPhase else p.phase,
    status := if p.current + 1 ≥ p.total then "completed" else "running" }

/-- A project plan carried by a consensus session status.  `updated` is the
client-side marker set when the plan is applied. -/
structure Plan where
  steps : List String
  updated : Bool
  deriving DecidableEq, Repr

/-- The consensus-side state of `ConsensusContext`.  Consensus discussion
entries are recorded by content (their presentation-only ids and timestamps
carry no orchestration logic). -/
structure ConsState where
  consensusMessages : List String
  projectPlan : Option Plan
  currentPhase : String
  progress : Progress
  deriving DecidableEq, Repr

/-- `setProjectPlanFromConsensus`: store the plan, set `total` from the step
count, move the progress phase to Coding/running and the current phase to
`coding`. -/
def setProjectPlanFromConsensus (pl : Plan) (c : ConsState) : ConsState :=
  { c with
      projectPlan := some pl,
      progress :=
        { c.progress with
            total := pl.steps.length, phase := "Coding", status := "running" },
      currentPhase := "coding" }

/-- One status payload of the session-status collaborator
(`GET /consensus/:id`). -/
structure SessionStatus where
  consensus_messages : List String
  plan : Option Plan
  phase : String
  files : FileMap
  status : String
  deriving DecidableEq, Repr

/-! ### Orchestration Engine (`useOpenRouter.js` with the `ChatInput` guard) -/

/-- The composite client state the engine acts on: the `AppContext` state, the
consensus state, whether a polling interval is set, and the number of network
calls handed to the chat collaborator. -/
structure SysState where
  app : AppState
  cons : ConsState
  polling : Bool
  calls : Nat
  deriving DecidableEq, Repr

/-- Stage 1 of a poll tick: append the reported inter-agent discussion
entries to the consensus log. -/
def pollApplyMessages (st : SessionStatus) (s : SysState) : SysState :=
  { s with cons :=
    { s.cons with consensusMessages := s.cons.consensusMessages ++ st.consensus_messages } }

/-- Stage 2 of a poll tick: apply the plan if one is reported and not yet
marked applied (the status fetched from the collaborator never carries the
client-side `updated` marker, so a reported plan is applied). -/
def pollApplyPlan (st : SessionStatus) (s : SysState) : SysState :=
  match st.plan with
  | some pl =>
    if !pl.updated then
      { s with cons := setProjectPlanFromConsensus { pl with updated := true } s.cons }
    else s
  | none => s

/-- Stage 3 of a poll tick: take a truthy reported phase. -/
def pollApplyPhase (st : SessionStatus) (s : SysState) : SysState :=
  if st.phase ≠ "" then { s with cons := { s.cons with currentPhase := st.phase } }
  else s

/-- Stage 4 of a poll tick: write every reported file into the Artifact
Store. -/
def pollApplyFiles (st : SessionStatus) (s : SysState) : SysState :=
  st.files.foldl (fun acc fc => { acc with app := updateFile fc.1 fc.2 acc.app }) s

/-- One tick of `pollConsensusStatus` on a session status payload: append the
reported discussion entries, apply a not-yet-applied plan, take a truthy
phase, write every reported file into the Artifact Store, and on a terminal
status clear the generating indicator and report that polling should stop. -/
def pollTick (st : SessionStatus) (s : SysState) : Bool × SysState :=
  let s4 := pollApplyFiles st (pollApplyPhase st (pollApplyPlan st (pollApplyMessages st s)))
  if st.status = "completed" then
    (true, { s4 with app := { s4.app with isGenerating := false } })
  else if st.status = "failed" then
    (true, { s4 with app := { s4.app with isGenerating := false } })
  else
    (false, s4)

/-- The possible outcomes of the chat collaborator call: a response object, or
a thrown transport/application error. -/
inductive NetOutcome where
  | ok (responses : List (String × String)) (sessionId : Option String)
  | fail (msg : String)
  deriving DecidableEq, Repr

/-- The result of `sendMessage`, mirroring its control flow: the two fail-fast
rejections, a consensus session opening, a direct multi-model response, or a
caught error. -/
inductive SendResult where
  | noCredential
  | noActiveRole
  | consensusStarted
  | direct
  | failed
  deriving DecidableEq, Repr

/-- `sendMessage` of `useOpenRouter.js`.  Fail fast on a falsy API key, then
on an empty `selectedModels`; otherwise set the generating indicator, append
the user message optimistically, and hand the request to the chat
collaborator (counted in `calls`).  A response carrying a session id appends a
system-tagged placeholder message and starts polling; a direct response
appends one assistant message per model response and clears the indicator; a
thrown error clears the indicator.  `now` is the ambient clock. -/
def sendMessage (userMessage : String) (now : Nat) (net : NetOutcome)
    (s : SysState) : SendResult × SysState :=
  if s.app.apiKey = "" then (SendResult.noCredential, s)
  else if (selectedModels s.app.roles).length = 0 then (SendResult.noActiveRole, s)
  else
    let s1 := { s with
      app := addMessage { role := "user", content := userMessage } now
        { s.app with isGenerating := true },
      calls := s.calls + 1 }
    match net with
    | NetOutcome.fail _ =>
      (SendResult.failed, { s1 with app := { s1.app with isGenerating := false } })
    | NetOutcome.ok responses sessionId =>
      match sessionId with
      | some _ =>
        let s2 := { s1 with
          app := addMessage
            { role := "assistant",
              content := (responses.headD ("", "")).2,
              model := some "system" } now s1.app }
        (SendResult.consensusStarted, { s2 with polling := true })
      | none =>
        let s2 := { s1 with
          app := responses.foldl (fun (acc : AppState) (mr : String × String) =>
            addMessage
              { role := "assistant", content := mr.2, model := some mr.1 } now acc) s1.app }
        (SendResult.direct, { s2 with app := { s2.app with isGenerating := false } })

/-- An externally triggered event of the composite system: a user submit of
the chat form (with the collaborator response it would receive), or a firing
of the polling interval (with the session status it would fetch). -/
inductive Ev where
  | submit (input : String) (now : Nat) (net : NetOutcome)
  | tick (st : SessionStatus)
  deriving DecidableEq, Repr

/-- One step of the composite system.  A submit goes through the `ChatInput`
guard: nothing happens when the trimmed input is empty or the generating
indicator is set, otherwise `sendMessage` runs on the trimmed input.  An
interval tick only fires while the interval is set; a tick whose status is
terminal clears the interval. -/
def stepSys (s : SysState) : Ev → SysState
  | Ev.submit input now net =>
    if strTrim input.data = "" || s.app.isGenerating then s
    else (sendMessage (strTrim input.data) now net s).2
  | Ev.tick st =>
    if s.polling then
      let r := pollTick st s
      if r.1 then { r.2 with polling := false } else r.2
    else s

/-- The scaffold the Artifact Store is seeded with. -/
def initFiles : FileMap :=
  [("index.html", "<!DOCTYPE html>\n<html>\n<head>\n  <link rel=\"stylesheet\" href=\"style.css\">\n</head>\n<body>\n  <h1>Hello World</h1>\n  <script src=\"script.js\"></script>\n</body>\n</html>"),
   ("style.css", "body \x7b margin: 0; padding: 20px; font-family: sans-serif; \x7d"),
   ("script.js", "console.log(\"Ready\");")]

/-- The initial composite state: scaffold files, empty log, generating off,
no polling; the persisted API key and role assignments are whatever
`localStorage` holds, hence parameters. -/
def initSys (key : String) (roles : RolesMap) : SysState :=
  { app :=
      { apiKey := key, roles := roles, files := initFiles,
        activeFile := "index.html", messages := [], isGenerating := false,
        previewKey := 0, scheduled := 0, projects := [], currentProject := none },
    cons :=
      { consensusMessages := [], projectPlan := none,
        currentPhase := "planning", progress := progressInit },
    polling := false,
    calls := 0 }

/-- The states the composite system can reach from a fresh session by user
submits and poll ticks. -/
inductive Reachable : SysState → Prop where
  | init (key : String) (roles : RolesMap) : Reachable (initSys key roles)
  | step (s : SysState) (e : Ev) : Reachable s → Reachable (stepSys s e)

/-! ### Supporting lemmas about the store operations -/

lemma lookupFM_upsertFM_self (k v : String) : ∀ m : FileMap,
    lookupFM k (upsertFM k v m) = some v := by
  intro m
  induction m with
  | nil => simp [upsertFM, lookupFM]
  | cons p rest ih =>
    by_cases hk : p.1 = k
    · simp [upsertFM, hk, lookupFM]
    · simp [upsertFM, hk, lookupFM, ih]

lemma lookupFM_upsertFM_ne {k k2 : String} (hne : k2 ≠ k) (v : String) :
    ∀ m : FileMap, lookupFM k2 (upsertFM k v m) = lookupFM k2 m := by
  intro m
  have hne2 : ¬ (k = k2) := fun h => hne h.symm
  induction m with
  | nil => simp [upsertFM, lookupFM, hne2]
  | cons p rest ih =>
    by_cases hk : p.1 = k
    · simp [upsertFM, hk, lookupFM, hne2]
    · simp [upsertFM, hk, lookupFM, ih]

lemma find?_storeProject (sp : Project) (name : String) (hname : sp.name = name) :
    ∀ ps : List Project,
      (storeProject sp ps).find? (fun p => p.name = name) = some sp := by
  intro ps
  induction ps with
  | nil => simp [storeProject, List.find?, hname]
  | cons p rest ih =>
    by_cases hn : p.name = sp.name
    · simp [storeProject, hn, List.find?, hname]
    · simp only [storeProject]
      rw [if_neg hn]
      rw [List.find?_cons]
      rw [show (decide (p.name = name)) = false from by
        simp
        intro hcon
        exact hn (by rw [hcon, hname])]
      exact ih

lemma headD_mem_of_ne_nil {l : List String} (h : l ≠ []) : l.headD "" ∈ l := by
  cases l with
  | nil => exact absurd rfl h
  | cons a t => simp [List.headD]

/-! ### Supporting lemmas for the viewport-directive count -/

lemma noCross_of_getLast {v a b : List Char} {ch : Char}
    (hl : a.getLast? = some ch) (hch : ch ∉ v) : NoCross v a b := by
  intro s1 s2 hv h1 h2 hcon
  rcases hcon.1 with ⟨t, rfl⟩
  rw [List.getLast?_append_of_ne_nil t h1] at hl
  rcases List.exists_cons_of_ne_nil h1 with ⟨c0, s1t, rfl⟩
  have hmem : ch ∈ c0 :: s1t := by
    rcases List.mem_getLast?_eq_getLast (by rw [hl]; rfl) with ⟨hne0, heq⟩
    rw [heq]
    exact List.getLast_mem hne0
  exact hch (by
    rw [hv]
    exact List.mem_append.2 (Or.inl hmem))

lemma noCross_of_head {v a b : List Char} {ch : Char}
    (hh : b.head? = some ch) (hch : ch ∉ v) : NoCross v a b := by
  intro s1 s2 hv h1 h2 hcon
  rcases hcon.2 with ⟨t, ht⟩
  rcases List.exists_cons_of_ne_nil h2 with ⟨c0, s2t, rfl⟩
  rw [← ht] at hh
  simp at hh
  subst hh
  exact hch (by
    rw [hv]
    exact List.mem_append.2 (Or.inr (by simp)))

/-! ### Concrete fixtures used by witnesses and counterexamples -/

/-- `DEFAULT_ROLES` of `AppContext.jsx` (no models assigned yet). -/
def defaultRoles : RolesMap :=
  [("planner", { model := "", enabled := true }),
   ("designer", { model := "", enabled := false }),
   ("coder", { model := "", enabled := true }),
   ("eyes", { model := "", enabled := false }),
   ("debugger", { model := "", enabled := true })]

/-- `DEFAULT_ROLES` with a model assigned to the coder role. -/
def coderRoles : RolesMap :=
  [("planner", { model := "", enabled := true }),
   ("designer", { model := "", enabled := false }),
   ("coder", { model := "anthropic/claude-3.5-sonnet", enabled := true }),
   ("eyes", { model := "", enabled := false }),
   ("debugger", { model := "", enabled := true })]

/-- A fresh session with a configured credential and an active coder role. -/
def demoSys : SysState := initSys "sk-or-demo" coderRoles

/-! ### Claim theorems -/

/-- C1: with no API credential configured, `sendMessage` rejects with the
`NoCredential` notice before doing anything else — the returned state is the
input state, so the Conversation Log is unchanged, no network call is counted
and the generating indicator is not set; likewise, when the set of enabled
roles with assigned models is empty, it rejects with the `NoActiveRole`
notice with no state change and no call. -/
theorem submit_fails_fast (s : SysState) (userMessage : String)
    (now : Nat) (net : NetOutcome) :
    (s.app.apiKey = "" →
      sendMessage userMessage now net s = (SendResult.noCredential, s)) ∧
    (s.app.apiKey ≠ "" → getActiveRoles s.app.roles = [] →
      sendMessage userMessage now net s = (SendResult.noActiveRole, s)) := by
  constructor
  · intro h
    simp [sendMessage, h]
  · intro h1 h2
    have h3 : selectedModels s.app.roles = [] := getActiveRoles_nil_iff.1 h2
    simp [sendMessage, h1, h3]

/-- Witness for C1: a fresh session without a credential rejects a submit
with `NoCredential`; one with a credential but no active role rejects with
`NoActiveRole`. -/
theorem submit_fails_fast_witness :
    sendMessage "build me a page" 1 (NetOutcome.ok [] none) (initSys "" defaultRoles)
        = (SendResult.noCredential, initSys "" defaultRoles)
      ∧ sendMessage "build me a page" 1 (NetOutcome.ok [] none) (initSys "sk-or-demo" defaultRoles)
        = (SendResult.noActiveRole, initSys "sk-or-demo" defaultRoles) :=
  ⟨(submit_fails_fast (initSys "" defaultRoles) "build me a page" 1
      (NetOutcome.ok [] none)).1 rfl,
   (submit_fails_fast (initSys "sk-or-demo" defaultRoles) "build me a page" 1
      (NetOutcome.ok [] none)).2 (by decide) (by decide)⟩

/-- C10: `updateFile` changes only the map entry of the written filename —
every other entry and the active selection are untouched — schedules a
preview refresh exactly when the filename ends in `.html`, `.css` or `.js`,
and leaves the preview key unchanged. -/
theorem updateFile_frame (s : AppState) (filename content : String) :
    lookupFM filename (updateFile filename content s).files = some content ∧
    (∀ g, g ≠ filename →
      lookupFM g (updateFile filename content s).files = lookupFM g s.files) ∧
    (updateFile filename content s).activeFile = s.activeFile ∧
    (updateFile filename content s).previewKey = s.previewKey ∧
    (updateFile filename content s).scheduled
      = s.scheduled + (if isPreviewable filename then 1 else 0) ∧
    (updateFile filename content s).messages = s.messages := by
  refine ⟨?_, ?_, ?_, ?_, ?_, ?_⟩
  · unfold updateFile
    by_cases hp : isPreviewable filename = true <;>
      simp [hp, lookupFM_upsertFM_self]
  · intro g hg
    unfold updateFile
    by_cases hp : isPreviewable filename = true <;>
      simp [hp, lookupFM_upsertFM_ne hg]
  · unfold updateFile
    by_cases hp : isPreviewable filename = true <;> simp [hp]
  · unfold updateFile
    by_cases hp : isPreviewable filename = true <;> simp [hp]
  · unfold updateFile
    by_cases hp : isPreviewable filename = true <;> simp [hp]
  · unfold updateFile
    by_cases hp : isPreviewable filename = true <;> simp [hp]

/-- Witness for C10: writing a non-previewable file in the demo session keeps
the other entries, the selection, the preview key and the schedule count. -/
theorem updateFile_frame_witness :
    lookupFM "notes.txt" (updateFile "notes.txt" "x" demoSys.app).files = some "x"
      ∧ lookupFM "style.css" (updateFile "notes.txt" "x" demoSys.app).files
        = lookupFM "style.css" demoSys.app.files
      ∧ (updateFile "notes.txt" "x" demoSys.app).scheduled = demoSys.app.scheduled :=
  ⟨(updateFile_frame demoSys.app "notes.txt" "x").1,
   (updateFile_frame demoSys.app "notes.txt" "x").2.1 "style.css" (by decide),
   by
    have h := (updateFile_frame demoSys.app "notes.txt" "x").2.2.2.2.1
    rw [h]
    decide⟩

/-- Iterated step-completion ticks on the progress state. -/
def progressTicks (phs : List String) (p : Progress) : Progress :=
  phs.foldl (fun q ph => updateProgress ph q) p

/-- Counterexample to C2 as stated: from the provider's initial progress state
a single step-completion tick yields `current = 1 > 0 = total` with status
`completed`, so `current` exceeds `total` and `completed` holds although
`current ≠ total`. -/
theorem progress_tick_overshoots_total :
    (updateProgress "" progressInit).total < (updateProgress "" progressInit).current
      ∧ (updateProgress "" progressInit).status = "completed"
      ∧ (updateProgress "" progressInit).current ≠ (updateProgress "" progressInit).total := by
  refine ⟨?_, ?_, ?_⟩ <;> decide

/-- C2 (amended): each step-completion tick increments `current` by exactly
one (so `current` is non-decreasing) and leaves `total` unchanged, but
`current` is not bounded by `total`; after any nonempty sequence of ticks the
status is `completed` exactly when `current` has reached **or passed**
`total` (not only when they are equal), and is `running` otherwise; in
particular, once the status is `completed` it never changes under further
ticks.  (The tick operator itself never produces `failed`.) -/
theorem progress_ticks_monotone (p : Progress) (phs : List String) :
    (progressTicks phs p).total = p.total
      ∧ (progressTicks phs p).current = p.current + phs.length
      ∧ (phs ≠ [] →
          ((progressTicks phs p).status = "completed"
              ↔ p.total ≤ (progressTicks phs p).current)
            ∧ ((progressTicks phs p).status = "completed"
              ∨ (progressTicks phs p).status = "running"))
      ∧ (p.status = "completed" → p.total ≤ p.current →
          (progressTicks phs p).status = "completed") := by
  induction phs generalizing p with
  | nil =>
    refine ⟨rfl, by simp [progressTicks], fun h => absurd rfl h, fun h _ => h⟩
  | cons ph rest ih =>
    have hstep : progressTicks (ph :: rest) p
        = progressTicks rest (updateProgress ph p) := rfl
    rcases ih (updateProgress ph p) with ⟨ht, hc, hs, hk⟩
    have htot : (updateProgress ph p).total = p.total := rfl
    have hcur : (updateProgress ph p).current = p.current + 1 := rfl
    refine ⟨by rw [hstep, ht, htot],
      by rw [hstep, hc, hcur]; simp [List.length_cons]; omega, ?_, ?_⟩
    · intro _
      match rest with
      | [] =>
        constructor
        · unfold progressTicks updateProgress
          simp only [List.foldl]
          constructor
          · intro hcomp
            by_cases hge : p.current + 1 ≥ p.total
            · omega
            · rw [if_neg hge] at hcomp
              exact absurd hcomp (by decide)
          · intro hge
            rw [if_pos (by omega)]
        · unfold progressTicks updateProgress
          simp only [List.foldl]
          by_cases hge : p.current + 1 ≥ p.total
          · rw [if_pos hge]; exact Or.inl rfl
          · rw [if_neg hge]; exact Or.inr rfl
      | q :: rest2 =>
        rw [hstep]
        exact hs (by simp)
    · intro hcomp hle
      rw [hstep]
      match rest with
      | [] =>
        unfold progressTicks updateProgress
        simp only [List.foldl]
        rw [if_pos (by omega)]
      | q :: rest2 =>
        rcases hs (by simp) with ⟨hiff, _⟩
        refine hiff.2 ?_
        rw [hc, hcur, htot]
        omega

/-- Witness for C2 (amended): three ticks on a three-step plan applied to the
initial progress state end with `current = 3 = total` and status
`completed`. -/
theorem progress_ticks_monotone_witness :
    (progressTicks ["a", "b", "c"]
        (setProjectPlanFromConsensus
          { steps := ["s1", "s2", "s3"], updated := true }
          { consensusMessages := [], projectPlan := none,
            currentPhase := "planning", progress := progressInit }).progress).status
      = "completed" := by
  have h := (progress_ticks_monotone
    (setProjectPlanFromConsensus
      { steps := ["s1", "s2", "s3"], updated := true }
      { consensusMessages := [], projectPlan := none,
        currentPhase := "planning", progress := progressInit }).progress
    ["a", "b", "c"]).2.2.1 (by decide)
  exact h.1.2 (by
    rw [(progress_ticks_monotone _ ["a", "b", "c"]).2.1]
    decide)

/-- Counterexample to C4 as stated: on a store whose sole entry `"a.txt"` has
empty content, `createFile "a.txt"` does **not** fail with `DuplicateName` —
the truthiness check misses the empty string — and the store changes. -/
theorem createFile_duplicate_check_hole :
    (createFile "a.txt" "x"
        { demoSys.app with files := [("a.txt", "")], activeFile := "a.txt" }).1
        = CreateOutcome.created
      ∧ (createFile "a.txt" "x"
          { demoSys.app with files := [("a.txt", "")], activeFile := "a.txt" }).2.files
        = [("a.txt", "x")] := by
  constructor <;> decide

/-- C4 (amended): `create` fails with `DuplicateName` — leaving the file map
and the active selection exactly unchanged — when the filename maps to
**non-empty** content; a filename present with empty content slips through
the truthiness check and is overwritten.  `delete` on a store whose map has a
single entry fails with `LastArtifact` and the state is exactly unchanged. -/
theorem create_delete_reject_no_state_change (s : AppState) (filename content : String) :
    ((∃ v, lookupFM filename s.files = some v ∧ v ≠ "") →
        createFile filename content s = (CreateOutcome.duplicateName, s))
      ∧ (lookupFM filename s.files = some "" →
          (createFile filename content s).1 = CreateOutcome.created)
      ∧ (s.files.length = 1 →
          deleteFile filename s = (DeleteOutcome.lastArtifact, s)) := by
  refine ⟨?_, ?_, ?_⟩
  · rintro ⟨v, hv, hne⟩
    have ht : truthyFM filename s.files = true := by
      unfold truthyFM
      rw [hv]
      simpa using hne
    simp [createFile, ht]
  · intro hv
    have ht : truthyFM filename s.files = false := by
      unfold truthyFM
      rw [hv]
      simp
    simp [createFile, ht]
  · intro hlen
    simp [deleteFile, hlen]

/-- Witness for C4 (amended): in a store holding `a.txt` with content and a
second file, re-creating `a.txt` is rejected with no state change, and once
only one file remains, deleting it is rejected with no state change. -/
theorem create_delete_reject_witness :
    createFile "a.txt" "other"
        { demoSys.app with files := [("a.txt", "hi"), ("b.txt", "z")], activeFile := "a.txt" }
      = (CreateOutcome.duplicateName,
        { demoSys.app with files := [("a.txt", "hi"), ("b.txt", "z")], activeFile := "a.txt" })
    ∧ deleteFile "a.txt"
        { demoSys.app with files := [("a.txt", "hi")], activeFile := "a.txt" }
      = (DeleteOutcome.lastArtifact,
        { demoSys.app with files := [("a.txt", "hi")], activeFile := "a.txt" }) :=
  ⟨(create_delete_reject_no_state_change
      { demoSys.app with files := [("a.txt", "hi"), ("b.txt", "z")], activeFile := "a.txt" }
      "a.txt" "other").1 ⟨"hi", by decide, by decide⟩,
   (create_delete_reject_no_state_change
      { demoSys.app with files := [("a.txt", "hi")], activeFile := "a.txt" }
      "a.txt" "other").2.2 (by decide)⟩

lemma loadProject_found {s : AppState} {name : String} {p : Project}
    (h : s.projects.find? (fun q => q.name = name) = some p) :
    loadProject name s
      = refreshPreview
          { s with
              files := p.files,
              messages := p.messages,
              roles := p.roles,
              currentProject := some name,
              activeFile := (keysFM p.files).headD "" } := by
  unfold loadProject
  rw [h]

/-- A fixture state holding one logged message with a live `Date`
timestamp. -/
def loggedApp : AppState :=
  { demoSys.app with
      messages := [⟨"user", "hi", none, none, none, 0, TVal.tdate 0⟩] }

/-- Counterexample to C7 as stated: saving and re-loading a project whose log
holds a message with a `Date` timestamp does not restore a deep-equal
Conversation Log — the `localStorage` `JSON` round trip turns the `Date` into
its ISO string. -/
theorem save_load_log_not_deep_equal :
    (loadProject "p" (saveProject "p" "2026-10-12T00:00:00.000Z" loggedApp)).messages
      ≠ loggedApp.messages := by
  decide

/-- C7 (amended): saving a project under a name and loading that name
restores the file map deep-equal to the state at the save, restores the role
registry, sets the active selection to the first stored key (hence a valid
member of the restored map), and restores the Conversation Log deep-equal
**up to serialization of each message timestamp** (a `Date` comes back as its
ISO-8601 string; every other field survives the `JSON` round trip). -/
theorem save_load_round_trip (s : AppState) (name nowIso : String)
    (hne : s.files ≠ []) :
    (loadProject name (saveProject name nowIso s)).files = s.files
      ∧ (loadProject name (saveProject name nowIso s)).messages
        = s.messages.map serializeMsg
      ∧ (loadProject name (saveProject name nowIso s)).roles = s.roles
      ∧ (loadProject name (saveProject name nowIso s)).activeFile ∈ keysFM s.files := by
  have hfind : (saveProject name nowIso s).projects.find? (fun q => q.name = name)
      = some (serializeProject
        { name := name, files := s.files, messages := s.messages,
          roles := s.roles, timestamp := nowIso }) :=
    find?_storeProject _ name rfl s.projects
  rw [loadProject_found hfind]
  refine ⟨rfl, rfl, rfl, ?_⟩
  apply headD_mem_of_ne_nil
  unfold keysFM
  simpa using hne

/-- Witness for C7 (amended): the demo session round-trips its scaffold file
map and selects its first key. -/
theorem save_load_round_trip_witness :
    (loadProject "proj" (saveProject "proj" "2026-10-12T00:00:00.000Z" demoSys.app)).files
        = demoSys.app.files
      ∧ (loadProject "proj" (saveProject "proj" "2026-10-12T00:00:00.000Z" demoSys.app)).activeFile
        ∈ keysFM demoSys.app.files :=
  ⟨(save_load_round_trip demoSys.app "proj" "2026-10-12T00:00:00.000Z" (by decide)).1,
   (save_load_round_trip demoSys.app "proj" "2026-10-12T00:00:00.000Z" (by decide)).2.2.2⟩

/-- A snapshot whose stylesheet and script are clearly not part of the
markup. -/
def exportDemoFiles : FileMap :=
  [("index.html", "<html><head></head><body><p>hi</p></body></html>"),
   ("style.css", "body-accent-rule"),
   ("script.js", "console.log(2);")]

/-- Counterexample to C9 as stated: the export path output contains neither
the stylesheet artifact nor the script artifact — nothing is inlined. -/
theorem export_does_not_inline :
    containsSub "body-accent-rule".data (openInNewTab exportDemoFiles) = false
      ∧ containsSub "console.log(2);".data (openInNewTab exportDemoFiles) = false := by
  constructor <;> decide

/-- C9 (amended): the export path builds its standalone document from the
markup artifact alone (empty fallback, viewport directive injected when the
document does not mention one); the stylesheet and script artifacts are not
inlined — the output is invariant under arbitrary changes to them. -/
theorem export_ignores_styles_scripts (files : FileMap) (css js : String) :
    openInNewTab (upsertFM "style.css" css (upsertFM "script.js" js files))
      = openInNewTab files := by
  unfold openInNewTab
  rw [lookupFM_upsertFM_ne (by decide), lookupFM_upsertFM_ne (by decide)]

/-- A completed-session status payload that still reports a generated file. -/
def termStatus : SessionStatus :=
  { consensus_messages := [], plan := none, phase := "",
    files := [("script.js", "console.log(9);")], status := "completed" }

/-- Counterexample to C5 as stated: invoking the poll routine manually after
termination (no interval is set in `demoSys`) still writes the reported files
into the Artifact Store — the routine carries no terminal latch. -/
theorem poll_routine_unlatched :
    (pollTick termStatus demoSys).2.app.files ≠ demoSys.app.files := by
  decide

/-- C5 (amended): once a tick of the polling loop observes a terminal session
status (`completed` or `failed`), the interval is cleared and the generating
indicator ends; the loop is guaranteed not to fire again — any further
interval tick leaves the state exactly unchanged, so no Artifact Store or
Conversation Log write occurs from the loop afterward.  (A *manual*
re-invocation of the bare poll routine is not guarded, see the
counterexample.) -/
theorem polling_stops_on_terminal (s : SysState) (st : SessionStatus)
    (hp : s.polling = true)
    (hterm : st.status = "completed" ∨ st.status = "failed") :
    (stepSys s (Ev.tick st)).polling = false
      ∧ (stepSys s (Ev.tick st)).app.isGenerating = false
      ∧ ∀ st2 : SessionStatus,
          stepSys (stepSys s (Ev.tick st)) (Ev.tick st2) = stepSys s (Ev.tick st) := by
  have hstop : (pollTick st s).1 = true
      ∧ (pollTick st s).2.app.isGenerating = false := by
    unfold pollTick
    rcases hterm with h | h
    · rw [h]
      rw [if_pos rfl]
      exact ⟨rfl, rfl⟩
    · rw [h]
      rw [if_neg (by decide), if_pos rfl]
      exact ⟨rfl, rfl⟩
  have hstep : stepSys s (Ev.tick st) = { (pollTick st s).2 with polling := false } := by
    simp only [stepSys]
    rw [if_pos hp]
    simp only [hstop.1, if_true]
  refine ⟨by rw [hstep], by rw [hstep]; exact hstop.2, ?_⟩
  intro st2
  rw [hstep]
  simp only [stepSys]
  rw [if_neg (by simp)]

/-- Witness for C5 (amended): in a session that is polling, a tick reporting
`completed` clears the interval and the indicator, and a subsequent tick
changes nothing. -/
theorem polling_stops_on_terminal_witness :
    (stepSys { demoSys with polling := true } (Ev.tick termStatus)).polling = false
      ∧ stepSys (stepSys { demoSys with polling := true } (Ev.tick termStatus))
          (Ev.tick termStatus)
        = stepSys { demoSys with polling := true } (Ev.tick termStatus) :=
  ⟨(polling_stops_on_terminal { demoSys with polling := true } termStatus rfl
      (Or.inl rfl)).1,
   (polling_stops_on_terminal { demoSys with polling := true } termStatus rfl
      (Or.inl rfl)).2.2 termStatus⟩

lemma jsSubst_no_dollar {matched pre post : List Char} : ∀ {repl : List Char},
    (∀ c ∈ repl, c ≠ '$') → jsSubst matched pre post repl = repl := by
  intro repl
  induction repl with
  | nil => intro _; rfl
  | cons c rest ih =>
    intro h
    have hc : c ≠ '$' := h c (by simp)
    rw [jsSubst.eq_def]
    simp only []
    rw [if_neg hc]
    rw [ih (fun d hd => h d (by simp [hd]))]

/-- A snapshot whose markup already carries the viewport directive twice. -/
def doubledFiles : FileMap :=
  [("index.html",
    "<html><head>" ++ viewportTag ++ viewportTag ++ "</head><body></body></html>")]

/-- Counterexample to C6 as stated: on a snapshot whose markup already holds
the directive twice, the composed output contains the mobile-viewport
directive twice — "at most once in the output" fails for this snapshot
(composition adds nothing here; it merely does not remove duplicates that are
already present). -/
theorem viewport_directive_duplicated :
    countOcc viewportTag.data (updatePreview doubledFiles) = 2
      ∧ ¬ (countOcc viewportTag.data (updatePreview doubledFiles) ≤ 1) := by
  constructor <;> decide

/-- C6 (amended): composition is a pure function of the snapshot (two runs on
the same snapshot are byte-identical by definition), and re-running it never
duplicates the viewport directive: the composed output contains the directive
at most `max 1 n` times, where `n` is its occurrence count in the css/js
spliced document — in particular at most once whenever the snapshot's own
artifacts do not already contain it more than once. -/
theorem viewport_directive_bound (files : FileMap) :
    countOcc viewportTag.data (updatePreview files)
      ≤ max 1 (countOcc viewportTag.data (spliceDoc files)) := by
  have hvne : "viewport".data ≠ ([] : List Char) := by decide
  have hmid : viewportTag.data
      = "<meta name=\"".data ++ "viewport".data
        ++ "\" content=\"width=device-width, initial-scale=1.0\">".data := by decide
  unfold updatePreview
  by_cases hvp : containsSub "viewport".data (spliceDoc files) = true
  · rw [if_pos hvp]
    exact le_max_right _ _
  · have hfalse : containsSub "viewport".data (spliceDoc files) = false := by
      simpa using hvp
    rw [if_neg (by rw [hfalse]; exact Bool.false_ne_true)]
    have hv0 : countOcc "viewport".data (spliceDoc files) = 0 :=
      countOcc_eq_zero_of_not_contains hvne hfalse
    unfold jsReplace
    cases hsp : splitFirst "<head>".data (spliceDoc files) with
    | none =>
      show countOcc viewportTag.data (spliceDoc files)
        ≤ max 1 (countOcc viewportTag.data (spliceDoc files))
      exact le_max_right _ _
    | some pp =>
      obtain ⟨pre, post⟩ := pp
      have heq := splitFirst_eq _ _ _ _ hsp
      have hsubst : jsSubst "<head>".data pre post ("<head>" ++ viewportTag).data
          = ("<head>" ++ viewportTag).data :=
        jsSubst_no_dollar (by decide)
      show countOcc viewportTag.data
          (pre ++ jsSubst "<head>".data pre post ("<head>" ++ viewportTag).data ++ post)
        ≤ max 1 (countOcc viewportTag.data (spliceDoc files))
      rw [hsubst]
      have hassoc : pre ++ ("<head>" ++ viewportTag).data ++ post
          = (pre ++ "<head>".data) ++ (viewportTag.data ++ post) := by
        rw [show ("<head>" ++ viewportTag).data
          = "<head>".data ++ viewportTag.data from rfl]
        simp [List.append_assoc]
      rw [hassoc]
      have hlast1 : (pre ++ "<head>".data).getLast? = some '>' := by
        rw [List.getLast?_append_of_ne_nil pre (by decide)]
        decide
      have hgtv : ('>' : Char) ∉ "viewport".data := by decide
      have hA := @countOcc_append_eq "viewport".data (pre ++ "<head>".data)
        (viewportTag.data ++ post) hvne (noCross_of_getLast hlast1 hgtv)
      have hlast2 : viewportTag.data.getLast? = some '>' := by decide
      have hB := @countOcc_append_eq "viewport".data viewportTag.data post hvne
        (noCross_of_getLast hlast2 hgtv)
      have hprefix : countOcc "viewport".data (pre ++ "<head>".data)
          ≤ countOcc "viewport".data (spliceDoc files) := by
        apply countOcc_le_of_prefix
        exact ⟨post, by rw [heq]⟩
      have hsuffix : countOcc "viewport".data post
          ≤ countOcc "viewport".data (spliceDoc files) := by
        apply countOcc_le_of_suffix
        exact ⟨pre ++ "<head>".data, by rw [heq]⟩
      have hone : countOcc "viewport".data viewportTag.data = 1 := by decide
      have hvcount : countOcc "viewport".data
          ((pre ++ "<head>".data) ++ (viewportTag.data ++ post)) = 1 := by
        rw [hA, hB, hone]
        omega
      have hfinal : countOcc viewportTag.data
          ((pre ++ "<head>".data) ++ (viewportTag.data ++ post))
          ≤ countOcc "viewport".data
            ((pre ++ "<head>".data) ++ (viewportTag.data ++ post)) :=
        countOcc_le_of_mid hmid
      rw [hvcount] at hfinal
      exact le_trans hfinal (le_max_left _ _)

/-! ### The `isGenerating` invariant of the polling loop -/

lemma pollStages_frame (st : SessionStatus) (s : SysState) :
    (pollApplyFiles st (pollApplyPhase st (pollApplyPlan st (pollApplyMessages st s)))).polling
        = s.polling
      ∧ (pollApplyFiles st (pollApplyPhase st
          (pollApplyPlan st (pollApplyMessages st s)))).app.isGenerating
        = s.app.isGenerating := by
  have h1 : ∀ t : SysState, (pollApplyMessages st t).polling = t.polling
      ∧ (pollApplyMessages st t).app.isGenerating = t.app.isGenerating :=
    fun t => ⟨rfl, rfl⟩
  have h2 : ∀ t : SysState, (pollApplyPlan st t).polling = t.polling
      ∧ (pollApplyPlan st t).app.isGenerating = t.app.isGenerating := by
    intro t
    unfold pollApplyPlan
    rcases hpl : st.plan with _ | pl
    · exact ⟨rfl, rfl⟩
    · obtain ⟨steps, updated⟩ := pl
      cases updated with
      | false => exact ⟨rfl, rfl⟩
      | true => exact ⟨rfl, rfl⟩
  have h3 : ∀ t : SysState, (pollApplyPhase st t).polling = t.polling
      ∧ (pollApplyPhase st t).app.isGenerating = t.app.isGenerating := by
    intro t
    unfold pollApplyPhase
    by_cases hph : st.phase ≠ ""
    · rw [if_pos hph]; exact ⟨rfl, rfl⟩
    · rw [if_neg hph]; exact ⟨rfl, rfl⟩
  have h4 : ∀ (fs : FileMap) (t : SysState),
      (fs.foldl (fun acc fc => { acc with app := updateFile fc.1 fc.2 acc.app }) t).polling
          = t.polling
        ∧ (fs.foldl (fun acc fc => { acc with app := updateFile fc.1 fc.2 acc.app }) t).app.isGenerating
          = t.app.isGenerating := by
    intro fs
    induction fs with
    | nil => intro t; exact ⟨rfl, rfl⟩
    | cons fc rest ih =>
      intro t
      rw [List.foldl_cons]
      refine ⟨?_, ?_⟩
      · rw [(ih _).1]
      · rw [(ih _).2]
        show ({ t with app := updateFile fc.1 fc.2 t.app } : SysState).app.isGenerating
          = t.app.isGenerating
        unfold updateFile
        by_cases hp : isPreviewable fc.1 = true
        · rw [if_pos hp]
        · rw [if_neg hp]
  unfold pollApplyFiles
  constructor
  · rw [(h4 _ _).1, (h3 _).1, (h2 _).1, (h1 _).1]
  · rw [(h4 _ _).2, (h3 _).2, (h2 _).2, (h1 _).2]

lemma pollTick_nonterminal_frame {st : SessionStatus} {s : SysState}
    (h : (pollTick st s).1 = false) :
    (pollTick st s).2.polling = s.polling
      ∧ (pollTick st s).2.app.isGenerating = s.app.isGenerating := by
  have hframe := pollStages_frame st s
  unfold pollTick at h ⊢
  by_cases h1 : st.status = "completed"
  · rw [if_pos h1] at h
    exact absurd h (by simp)
  · rw [if_neg h1] at h ⊢
    by_cases h2 : st.status = "failed"
    · rw [if_pos h2] at h
      exact absurd h (by simp)
    · rw [if_neg h2]
      exact hframe

lemma sendMessage_polling_cases (userMessage : String) (now : Nat)
    (net : NetOutcome) (s : SysState) :
    (sendMessage userMessage now net s).2.polling = s.polling
      ∨ ((sendMessage userMessage now net s).2.polling = true
          ∧ (sendMessage userMessage now net s).2.app.isGenerating = true) := by
  unfold sendMessage
  by_cases h1 : s.app.apiKey = ""
  · rw [if_pos h1]; exact Or.inl rfl
  · rw [if_neg h1]
    by_cases h2 : (selectedModels s.app.roles).length = 0
    · rw [if_pos h2]; exact Or.inl rfl
    · rw [if_neg h2]
      match net with
      | NetOutcome.fail msg => exact Or.inl rfl
      | NetOutcome.ok responses sessionId =>
        match sessionId with
        | some sid => exact Or.inr ⟨rfl, rfl⟩
        | none => exact Or.inl rfl

/-- Invariant of every reachable composite state: while a polling interval is
set, the generating indicator is set.  This is what makes the `ChatInput`
guard effective against submits during an open consensus session. -/
lemma polling_imp_generating {s : SysState} (h : Reachable s) :
    s.polling = true → s.app.isGenerating = true := by
  induction h with
  | init key roles =>
    intro hp
    simp [initSys] at hp
  | step s e hr ih =>
    match e with
    | Ev.submit input now net =>
      simp only [stepSys]
      by_cases hg : (decide (strTrim input.data = "") || s.app.isGenerating) = true
      · rw [if_pos hg]; exact ih
      · rw [if_neg hg]
        have hg2 : ¬ strTrim input.data = "" ∧ s.app.isGenerating = false := by
          simpa using hg
        intro hp
        rcases sendMessage_polling_cases (strTrim input.data) now net s with hc | hc
        · rw [hc] at hp
          have := ih hp
          rw [hg2.2] at this
          exact absurd this (by simp)
        · exact hc.2
    | Ev.tick st =>
      simp only [stepSys]
      by_cases hpol : s.polling = true
      · rw [if_pos hpol]
        by_cases hstop : (pollTick st s).1 = true
        · simp only [hstop, if_true]
          intro hp
          exact absurd hp (by simp)
        · have hs2 : (pollTick st s).1 = false := by simpa using hstop
          rw [hs2]
          simp only [Bool.false_eq_true, if_false]
          intro _
          rw [(pollTick_nonterminal_frame hs2).2]
          exact ih hpol
      · rw [if_neg hpol]; exact ih

/-- C8: in every reachable state in which a consensus poll loop is active,
submitting a new user turn is rejected: the submit step leaves the composite
state exactly unchanged — no log append, no network call, no second session —
because the generating indicator stays set for the whole life of the poll
loop and the `ChatInput` guard drops submits while it is set. -/
theorem no_submit_while_polling (s : SysState) (h : Reachable s)
    (hp : s.polling = true) (input : String) (now : Nat) (net : NetOutcome) :
    stepSys s (Ev.submit input now net) = s := by
  have hgen := polling_imp_generating h hp
  simp only [stepSys]
  rw [if_pos (by rw [hgen]; simp)]

/-- Witness for C8: after a submit that opens a consensus session, the demo
session is polling, and a further submit leaves the state unchanged. -/
theorem no_submit_while_polling_witness :
    (stepSys demoSys
        (Ev.submit "make a page" 7 (NetOutcome.ok [("m", "ok")] (some "sess-1")))).polling = true
      ∧ stepSys
          (stepSys demoSys
            (Ev.submit "make a page" 7 (NetOutcome.ok [("m", "ok")] (some "sess-1"))))
          (Ev.submit "again" 8 (NetOutcome.ok [] none))
        = stepSys demoSys
            (Ev.submit "make a page" 7 (NetOutcome.ok [("m", "ok")] (some "sess-1"))) :=
  ⟨by decide,
   no_submit_while_polling _
     (Reachable.step demoSys
       (Ev.submit "make a page" 7 (NetOutcome.ok [("m", "ok")] (some "sess-1")))
       (Reachable.init "sk-or-demo" coderRoles))
     (by decide) "again" 8 (NetOutcome.ok [] none)⟩

/-! ### The extractor round trip (C3) -/

lemma tryFence_some_fence_prefix {s : List Char} {fn code : String} {rest : List Char}
    (h : tryFence s = some (fn, code, rest)) : tickFence <+: s := by
  match s with
  | [] => simp [tryFence] at h
  | [a] => simp [tryFence] at h
  | [a, b] => simp [tryFence] at h
  | a :: b :: c :: t =>
    simp only [tryFence] at h
    split at h
    · next hcond =>
      simp only [Bool.and_eq_true, decide_eq_true_eq] at hcond
      obtain ⟨⟨ha, hb⟩, hc⟩ := hcond
      subst ha; subst hb; subst hc
      exact ⟨t, rfl⟩
    · exact absurd h (by simp)

lemma containsSub_cons_false {pat : List Char} {c : Char} {rest : List Char}
    (h : containsSub pat (c :: rest) = false) : containsSub pat rest = false := by
  unfold containsSub at h ⊢
  simp only [splitFirst] at h
  split at h
  · simp at h
  · rcases hsp : splitFirst pat rest with _ | p
    · rfl
    · rw [hsp] at h
      simp at h

lemma scanF_nil_of_no_fence : ∀ {t : List Char},
    containsSub tickFence t = false → scanF t.length t = [] := by
  intro t
  induction t with
  | nil => intro _; rfl
  | cons c rest ih =>
    intro h
    have htf : tryFence (c :: rest) = none := by
      rcases htry : tryFence (c :: rest) with _ | trip
      · rfl
      · obtain ⟨fn, code, rest2⟩ := trip
        have hpre := tryFence_some_fence_prefix htry
        have : containsSub tickFence (c :: rest) = true := by
          unfold containsSub
          simp only [splitFirst]
          rw [if_pos (List.isPrefixOf_iff_prefix.2 hpre)]
          rfl
        rw [this] at h
        exact absurd h (by simp)
    simp only [List.length_cons, scanF, htf]
    exact ih (containsSub_cons_false h)

/-- The canonical two-block message text: prose, an `html` fence holding
`b1`, prose, a `css` fence holding `b2`, prose. -/
lemma two_block_data (p0 p1 p2 b1 b2 : String) :
    (p0 ++ "```html\n" ++ b1 ++ "```" ++ p1 ++ "```css\n" ++ b2 ++ "```" ++ p2).data
      = p0.data ++ (tickFence ++ ("html".data ++ ('\n' :: (b1.data ++ (tickFence
        ++ (p1.data ++ (tickFence ++ ("css".data ++ ('\n' :: (b2.data
        ++ (tickFence ++ p2.data))))))))))) := by
  simp only [String.data_append]
  simp [tickFence, btick, List.append_assoc]

/-- Counterexample helper modelled from the claim wording: trim only leading
and trailing *blank lines* from a block body (the claim's reading), rather
than the `String.prototype.trim` the source applies. -/
def claimLines : List Char → List (List Char)
  | [] => [[]]
  | c :: rest =>
    match claimLines rest with
    | [] => [[c]]
    | h :: t => if c = '\n' then [] :: h :: t else (c :: h) :: t

/-- A line is blank when it consists of whitespace only. -/
def isBlankLine (l : List Char) : Bool := l.all isWsChar

/-- Modelled from the claim wording (`bodies trimmed of leading/trailing
blank lines`): split into lines, drop blank lines at both ends, rejoin. -/
def claimBlankTrim (s : String) : String :=
  let ls := claimLines s.data
  let ls2 := ((ls.dropWhile isBlankLine).reverse.dropWhile isBlankLine).reverse
  String.mk (List.intercalate ['\n'] ls2)

/-- Counterexample to C3 as stated: for the two-block text whose `html` body
is `" x \n"` (a line with one leading and one trailing space), the extractor
returns `"x"` — `String.prototype.trim` strips the spaces as well — whereas
trimming only leading/trailing blank lines would keep `" x "`. -/
theorem extractor_trims_whitespace_not_blank_lines :
    extractCodeBlocks "```html\n x \n```\n```css\ny\n```"
        = [("index.html", "x"), ("style.css", "y")]
      ∧ claimBlankTrim " x \n" = " x "
      ∧ extractCodeBlocks "```html\n x \n```\n```css\ny\n```"
        ≠ [("index.html", claimBlankTrim " x \n"), ("style.css", claimBlankTrim "y\n")] := by
  refine ⟨by decide, by decide, by decide⟩

/-- C3 (amended): for every message text consisting of exactly two fenced
blocks tagged `html` and `css` with backtick-free bodies `b1` and `b2`
embedded in backtick-free prose, the extractor returns exactly
`[("index.html", b1'), ("style.css", b2')]` in that order, where `b1'`,`b2'`
are the bodies trimmed of leading and trailing **whitespace** (JavaScript
`trim`, which also strips indentation on the first and last body lines — not
merely blank lines); and every text containing no triple-backtick fence
yields the empty list, with the full text retained as the prose portion. -/
theorem extractor_round_trip :
    (∀ p0 p1 p2 b1 b2 : String,
        (∀ c ∈ p0.data, c ≠ btick) → (∀ c ∈ p1.data, c ≠ btick) →
        (∀ c ∈ p2.data, c ≠ btick) → (∀ c ∈ b1.data, c ≠ btick) →
        (∀ c ∈ b2.data, c ≠ btick) →
        extractCodeBlocks (p0 ++ "```html\n" ++ b1 ++ "```" ++ p1
            ++ "```css\n" ++ b2 ++ "```" ++ p2)
          = [("index.html", strTrim b1.data), ("style.css", strTrim b2.data)])
      ∧ (∀ t : String, containsSub tickFence t.data = false →
          extractCodeBlocks t = [] ∧ proseContent t = t) := by
  constructor
  · intro p0 p1 p2 b1 b2 h0 h1 h2 hb1 hb2
    unfold extractCodeBlocks
    rw [two_block_data]
    rw [scanF_skip_noTick h0]
    rw [scanF_block (by decide) hb1
      (p1.data ++ (tickFence ++ ("css".data ++ ('\n' :: (b2.data ++ (tickFence ++ p2.data))))))]
    rw [scanF_skip_noTick h1]
    rw [scanF_block (by decide) hb2 p2.data]
    rw [scanF_nil_of_noTick h2]
    rw [show resolveName "html".data = "index.html" from by decide]
    rw [show resolveName "css".data = "style.css" from by decide]
  · intro t ht
    have hempty : extractCodeBlocks t = [] := scanF_nil_of_no_fence ht
    refine ⟨hempty, ?_⟩
    unfold proseContent
    rw [hempty]
    rfl

/-- Witness for C3 (amended): a concrete two-block message extracts to the
two canonical files, and a fence-free message extracts to nothing with the
text kept as prose. -/
theorem extractor_round_trip_witness :
    extractCodeBlocks ("Here you go: " ++ "```html\n" ++ "<h1>Hi</h1>\n" ++ "```"
          ++ " and " ++ "```css\n" ++ "h1 \x7b color: red \x7d\n" ++ "```" ++ " done")
        = [("index.html", strTrim "<h1>Hi</h1>\n".data),
           ("style.css", strTrim "h1 \x7b color: red \x7d\n".data)]
      ∧ extractCodeBlocks "just words" = []
      ∧ proseContent "just words" = "just words" :=
  ⟨extractor_round_trip.1 "Here you go: " " and " " done"
      "<h1>Hi</h1>\n" "h1 \x7b color: red \x7d\n"
      (by decide) (by decide) (by decide) (by decide) (by decide),
   (extractor_round_trip.2 "just words" (by decide)).1,
   (extractor_round_trip.2 "just words" (by decide)).2⟩

end Spec2Proof
